import Mathlib

/-!
Verification development for `validate_hn_freight_matrix_file.py`, the
freight-matrix CSV/JSON validation and export tool.  The Python source is
shallowly embedded: strings are Lean `String`s (lists of characters),
Python `float` values are exact rationals `ℚ` together with explicit
infinity/NaN markers, and the stateful validation loops become explicit
state-passing functions.  Character-class predicates (`str.isalnum`,
`str.isdigit`, `str.lower`, `str.strip`) are modelled faithfully for all
code points up to U+00FF (Latin-1); code points above that range are
treated as outside the classes, which is the only idealization made.

The rational operations from Batteries are restored to their definitional
transparency so that concrete runs of the embedded program can be
evaluated by `decide`.
-/

attribute [local semireducible] Rat.mul Rat.inv Rat.add Rat.sub

set_option maxRecDepth 8000

/-- Whitespace characters stripped by Python's `str.strip()`
(modelled for the Latin-1 range). -/
def isPySpace (c : Char) : Bool :=
  c = ' ' || c = '\t' || c = '\n' || c = '\r' || c = '\x0b' || c = '\x0c' ||
  c = '\x1c' || c = '\x1d' || c = '\x1e' || c = '\x1f' || c = '\x85' || c = '\xa0'

/-- Drop the longest suffix of `l` all of whose elements satisfy `p`. -/
def dropEndWhile (p : Char → Bool) (l : List Char) : List Char :=
  (l.reverse.dropWhile p).reverse

/-- Drop the longest prefix and the longest suffix of `l` whose elements
satisfy `p` — the effect of Python's `str.strip(chars)`. -/
def stripEnds (p : Char → Bool) (l : List Char) : List Char :=
  dropEndWhile p (l.dropWhile p)

/-- Python `s.strip()`: remove leading and trailing whitespace. -/
def pyStrip (s : String) : String := ⟨stripEnds isPySpace s.data⟩

/-- Python `s.strip('"')`: remove every leading and trailing
double-quote character. -/
def pyStripQuotes (s : String) : String := ⟨stripEnds (fun c => c = '"') s.data⟩

/-- Python `str.lower()` on one character, modelled for Latin-1:
ASCII `A`–`Z` and the accented capitals U+00C0–U+00DE (except `×`)
shift down by 32. -/
def pyToLower (c : Char) : Char :=
  if 'A' ≤ c ∧ c ≤ 'Z' then Char.ofNat (c.toNat + 32)
  else if 0xC0 ≤ c.toNat ∧ c.toNat ≤ 0xDE ∧ c.toNat ≠ 0xD7 then Char.ofNat (c.toNat + 32)
  else c

/-- Python `str.lower()` on a string (Latin-1 model). -/
def pyLower (s : String) : String := ⟨s.data.map pyToLower⟩

/-- Python `str.isalnum()` on one character, modelled exactly for the
Latin-1 range: ASCII letters and digits, the ordinal and micro signs,
superscript digits, vulgar fractions, and the accented letters
U+00C0–U+00FF except `×` and `÷`.  Code points above U+00FF (which
Python may also classify as alphanumeric) are treated as outside the
class; the claims below only involve Latin-1 inputs. -/
def pyIsAlnum (c : Char) : Bool :=
  ('0' ≤ c && c ≤ '9') || ('A' ≤ c && c ≤ 'Z') || ('a' ≤ c && c ≤ 'z') ||
  (let n := c.toNat
   n = 0xAA || n = 0xB5 || n = 0xBA || n = 0xB2 || n = 0xB3 || n = 0xB9 ||
   n = 0xBC || n = 0xBD || n = 0xBE ||
   (0xC0 ≤ n && n ≤ 0xFF && n ≠ 0xD7 && n ≠ 0xF7))

/-- Python `str.isdigit()` on one character (Latin-1 model: ASCII digits
and the superscript digits `¹²³`). -/
def pyIsDigit (c : Char) : Bool :=
  ('0' ≤ c && c ≤ '9') || c.toNat = 0xB2 || c.toNat = 0xB3 || c.toNat = 0xB9

/-- A scalar value as it reaches `normalize_str`: Python `None`, a string,
or an integer.  (JSON floats as *input* values do not appear in the
claims and are not modelled; every numeric field the claims exercise is
a string or an int.) -/
inductive PyVal where
  | vnone : PyVal
  | vstr (s : String) : PyVal
  | vint (n : Int) : PyVal
deriving DecidableEq

/-- Source `normalize_str` restricted to string input:
`str(v).strip().strip('"').strip()`. -/
def normStr (s : String) : String := pyStrip (pyStripQuotes (pyStrip s))

/-- Source `normalize_str`: `None → ""`; ints are stringified and
stripped; strings are stripped, have all surrounding double quotes
removed, and are stripped again. -/
def normalize_str : PyVal → String
  | .vnone => ""
  | .vint n => pyStrip (toString n)
  | .vstr s => normStr s

/-- Source `CSV_FIELD_ALIASES`: the registered header aliases for each
logical field, exactly as listed in the code. -/
def CSV_FIELD_ALIASES (key : String) : List String :=
  if key = "sku" then ["sku", "productcode", "productCode", "product_code", "product id", "productid"]
  else if key = "postCode" then ["postcode", "postCode", "post_code", "post code", "zip", "zip_code"]
  else if key = "price" then ["price", "unit_price", "unitPrice", "unitprice", "unit price", "amount"]
  else []

/-- A row as a Python dict: an association list of key/value pairs in
insertion order; a repeated key means the later entry overwrote the
earlier one, so lookups take the last matching entry. -/
abbrev Row : Type := List (String × PyVal)

/-- Membership test `k in row` of a Python dict. -/
def keyMem (row : Row) (k : String) : Bool := row.any (fun kv => kv.1 = k)

/-- Lookup `row.get(k)` of a Python dict (last entry wins). -/
def dictGet (row : Row) (k : String) : Option PyVal :=
  match (row.filter (fun kv => kv.1 = k)).getLast? with
  | some kv => some kv.2
  | none => none

/-- Source `_lower_keys`: strip and lowercase every key. -/
def lowerKeys (row : Row) : Row := row.map (fun kv => (pyLower (pyStrip kv.1), kv.2))

/-- Source `field_from_row`: scan the alias list of the logical field and
return the value stored under the first alias present in the row. -/
def field_from_row (row : Row) (key : String) : Option PyVal :=
  match (CSV_FIELD_ALIASES key).find? (fun a => keyMem row (pyLower a)) with
  | some a => dictGet row (pyLower a)
  | none => none

/-- Value of a logical field as the validator sees it:
`normalize_str(field_from_row(row, key))`, where an absent field behaves
like Python `None`. -/
def resolveField (row : Row) (key : String) : String :=
  match field_from_row row key with
  | some v => normalize_str v
  | none => normalize_str .vnone

/-- Source `is_valid_sku`: re-normalize, then fail on empty, on any
character that is neither alphanumeric nor one of `-_./`, or on length
over 64. -/
def is_valid_sku (s : String) : Bool × String :=
  let s := normStr s
  if s = "" then (false, "sku empty")
  else if s.data.any (fun ch => ¬(pyIsAlnum ch || ch = '-' || ch = '_' || ch = '.' || ch = '/')) then
    (false, "sku has invalid characters")
  else if s.data.length > 64 then (false, "sku too long")
  else (true, "")

/-- Source `is_valid_postcode`: re-normalize, then fail on empty, or on
not being exactly four digits. -/
def is_valid_postcode (pc : String) : Bool × String :=
  let pc := normStr pc
  if pc = "" then (false, "postCode empty")
  else if ¬(pc.data.all pyIsDigit) ∨ pc.data.length ≠ 4 then (false, "postCode must be 4 digits")
  else (true, "")

/-- Python `s.replace(c, "")`: remove every occurrence of one character. -/
def removeChar (s : String) (c : Char) : String := ⟨s.data.filter (fun x => x ≠ c)⟩

/-- Source `normalize_price` line `clean = s.replace(",", "")`. -/
def stripCommas (s : String) : String := removeChar s ','

/-- Source `normalize_price` loop `for sym in "$€£AUDaud ": clean =
clean.replace(sym, "")` — a per-character strip of each of the nine
currency characters and the space. -/
def stripCurrency (s : String) : String :=
  ['$', '€', '£', 'A', 'U', 'D', 'a', 'u', 'd', ' '].foldl removeChar s

/-- Result of Python `float(...)`: a finite rational, an infinity, or NaN. -/
inductive PyFloat where
  | fin (q : ℚ) : PyFloat
  | inf : PyFloat
  | neginf : PyFloat
  | nan : PyFloat
deriving DecidableEq

/-- Check Python's numeric-literal underscore rule: every underscore must
sit directly between two digits. -/
def underscoresOk : Option Char → List Char → Bool
  | _, [] => true
  | prev, c :: rest =>
    if c = '_' then
      (match prev with | some p => p.isDigit | none => false) &&
      (match rest.head? with | some n => n.isDigit | none => false) &&
      underscoresOk (some c) rest
  else underscoresOk (some c) rest

/-- Numeric value of a list of ASCII digits. -/
def digitsVal (l : List Char) : Nat := l.foldl (fun a c => a * 10 + (c.toNat - 48)) 0

/-- Parse the mantissa part of a Python float literal:
`digits [. digits]` or `. digits`, at least one digit overall. -/
def parseMantissa (l : List Char) : Option ℚ :=
  let intPart := l.takeWhile Char.isDigit
  let rest := l.dropWhile Char.isDigit
  match rest with
  | [] => if intPart.isEmpty then none else some (digitsVal intPart : ℚ)
  | '.' :: rest2 =>
    let fracPart := rest2.takeWhile Char.isDigit
    let rest3 := rest2.dropWhile Char.isDigit
    if ¬rest3.isEmpty then none
    else if intPart.isEmpty ∧ fracPart.isEmpty then none
    else some ((digitsVal intPart : ℚ) + (digitsVal fracPart : ℚ) / ((10 : ℚ) ^ fracPart.length))
  | _ => none

/-- Parse an optional exponent sign followed by digits. -/
def parseExp (l : List Char) : Option Int :=
  let (sgn, l) := match l with
    | '+' :: r => ((1 : Int), r)
    | '-' :: r => ((-1 : Int), r)
    | _ => ((1 : Int), l)
  if l.isEmpty ∨ ¬(l.all Char.isDigit) then none
  else some (sgn * (digitsVal l : Int))

/-- Scale a rational by a signed power of ten. -/
def scale10 (q : ℚ) (e : Int) : ℚ :=
  if 0 ≤ e then q * (10 : ℚ) ^ e.toNat else q / (10 : ℚ) ^ (-e).toNat

/-- Parse mantissa with optional `e`/`E` exponent. -/
def pyFloatCore (l : List Char) : Option ℚ :=
  match l.span (fun c => ¬(c = 'e' ∨ c = 'E')) with
  | (mant, []) => parseMantissa mant
  | (mant, _ :: expPart) =>
    match parseMantissa mant, parseExp expPart with
    | some m, some e => some (scale10 m e)
    | _, _ => none

/-- Magnitude at which conversion to an IEEE double overflows to
infinity. -/
def overflowBound : ℚ := ((Nat.pow 2 1024 : Nat) : ℚ)

/-- Python `float(s)`: strip whitespace, take an optional sign, accept
`inf`/`infinity`/`nan` (case-insensitive), otherwise parse a decimal
literal (underscores allowed between digits).  Finite results whose
magnitude reaches `2^1024` overflow to infinity as Python's conversion
to IEEE double does (the half-ulp rounding band just below `2^1024` is
idealized). -/
def pyFloat (s : String) : Option PyFloat :=
  let l := stripEnds isPySpace s.data
  let (sgn, l) := match l with
    | '+' :: r => ((1 : Int), r)
    | '-' :: r => ((-1 : Int), r)
    | _ => ((1 : Int), l)
  let lw := l.map pyToLower
  if lw = "inf".data ∨ lw = "infinity".data then
    some (if sgn = 1 then .inf else .neginf)
  else if lw = "nan".data then some .nan
  else if ¬underscoresOk none l then none
  else
    match pyFloatCore (l.filter (fun c => c ≠ '_')) with
    | none => none
    | some q =>
      let q := (sgn : ℚ) * q
      if overflowBound ≤ q then some .inf
      else if q ≤ -overflowBound then some .neginf
      else some (.fin q)

/-- Round-half-to-even to an integer, as Python's `round` does. -/
def roundHalfEven (q : ℚ) : ℤ :=
  if q - ⌊q⌋ < 1/2 then ⌊q⌋
  else if q - ⌊q⌋ > 1/2 then ⌊q⌋ + 1
  else if ⌊q⌋ % 2 = 0 then ⌊q⌋ else ⌊q⌋ + 1

/-- Python `round(x, 2)` on the exact-rational model of the float. -/
def round2 (q : ℚ) : ℚ := (roundHalfEven (q * 100) : ℚ) / 100

/-- Is the float strictly negative (`val < 0` in Python: NaN compares
false, negative infinity true)? -/
def pyNeg : PyFloat → Bool
  | .fin q => q < 0
  | .inf => false
  | .neginf => true
  | .nan => false

/-- Python `math.isinf(val) or math.isnan(val)`. -/
def pyNotFinite : PyFloat → Bool
  | .fin _ => false
  | _ => true

/-- Exact rational value of a finite float (junk on non-finite input,
which the caller has excluded). -/
def pyFloatVal : PyFloat → ℚ
  | .fin q => q
  | _ => 0

/-- Source `normalize_price`: normalize the string, fail on empty; strip
commas and the currency characters; fail if the remainder is not a
float literal; fail on negative and on non-finite values; otherwise
round to two decimal places. -/
def normalize_price (p : String) : Bool × ℚ × String :=
  let s := normStr p
  if s = "" then (false, 0, "price empty")
  else
    let clean := stripCurrency (stripCommas s)
    match pyFloat clean with
    | none => (false, 0, "price not a number")
    | some f =>
      if pyNeg f then (false, 0, "price negative")
      else if pyNotFinite f then (false, 0, "price not finite")
      else (true, round2 (pyFloatVal f), "")

/-- A validated record as built by `build_doc`. -/
structure Doc where
  sku : String
  postCode : String
  price : ℚ
deriving DecidableEq

/-- Source `build_doc`: the stored record re-normalizes the raw sku and
postcode strings (a second normalization pass). -/
def build_doc (rawSku rawPc : String) (priceVal : ℚ) : Doc :=
  ⟨normStr rawSku, normStr rawPc, priceVal⟩


/-- A validation error entry: 1-based row number (0 for file-level, 1
for header-level), a context string, and a semicolon-joined message. -/
structure VError where
  row : Nat
  context : String
  error : String
deriving DecidableEq

/-- The mutable state of one validation run: the accepted records, the
error list, the warning list, and the set of identity keys seen so far
(a Python `set`, modelled as a list queried only through `contains`). -/
structure VState where
  docs : List Doc
  errors : List VError
  warnings : List String
  seen : List String
deriving DecidableEq

/-- The state every validation run starts from. -/
def emptyState : VState := ⟨[], [], [], []⟩

/-- Python `"; ".flatten(errs)`. -/
def joinSemi : List String → String
  | [] => ""
  | [a] => a
  | a :: rest => a ++ "; " ++ joinSemi rest

/-- Python `", ".flatten(xs)`. -/
def joinComma : List String → String
  | [] => ""
  | [a] => a
  | a :: rest => a ++ ", " ++ joinComma rest

/-- The `context` string attached to a row error:
`f"sku={raw_sku}, postCode={raw_pc}"`. -/
def rowContext (rawSku rawPc : String) : String :=
  "sku=" ++ rawSku ++ ", postCode=" ++ rawPc

/-- The three resolved raw field strings of a row: lowercase the keys,
look each logical field up through the alias table, and normalize. -/
def rowRaws (row : Row) : String × String × String :=
  let r := lowerKeys row
  (resolveField r "sku", resolveField r "postCode", resolveField r "price")

/-- The accumulated reason list for one row, in the order the code
appends them: missing-field reasons first, then the per-field
validation failures for the non-empty fields. -/
def rowErrs (rawSku rawPc rawPrice : String) : List String :=
  (if rawSku = "" then ["sku missing"] else []) ++
  (if rawPc = "" then ["postCode missing"] else []) ++
  (if rawPrice = "" then ["price missing"] else []) ++
  (if rawSku ≠ "" ∧ (is_valid_sku rawSku).1 = false then [(is_valid_sku rawSku).2] else []) ++
  (if rawPc ≠ "" ∧ (is_valid_postcode rawPc).1 = false then [(is_valid_postcode rawPc).2] else []) ++
  (if rawPrice ≠ "" ∧ (normalize_price rawPrice).1 = false then [(normalize_price rawPrice).2.2] else [])

/-- Source `validate_obj` (the per-object body of `validate_json`):
resolve and normalize the three fields, accumulate reasons, emit a row
error if any; otherwise check the identity key `raw_sku + "|" + raw_pc`
against the seen set, emitting a "Duplicate id within file" error or
accepting the record. -/
def validate_obj (st : VState) (idx : Nat) (row : Row) : VState :=
  let rawSku := (rowRaws row).1
  let rawPc := (rowRaws row).2.1
  let rawPrice := (rowRaws row).2.2
  let errs := rowErrs rawSku rawPc rawPrice
  if errs ≠ [] then
    { st with errors := st.errors ++ [⟨idx, rowContext rawSku rawPc, joinSemi errs⟩] }
  else
    let docId := rawSku ++ "|" ++ rawPc
    if st.seen.contains docId then
      { st with errors := st.errors ++ [⟨idx, rowContext rawSku rawPc, "Duplicate id within file"⟩] }
    else
      { st with docs := st.docs ++ [build_doc rawSku rawPc (normalize_price rawPrice).2.1],
                seen := docId :: st.seen }

/-- The per-row body of the CSV loop in `_validate_from_reader`: the same
logic as `validate_obj`, except that a row whose three resolved raw
fields are all empty is skipped outright. -/
def csvRowStep (st : VState) (idx : Nat) (row : Row) : VState :=
  let rawSku := (rowRaws row).1
  let rawPc := (rowRaws row).2.1
  let rawPrice := (rowRaws row).2.2
  if rawSku = "" ∧ rawPc = "" ∧ rawPrice = "" then st
  else
    let errs := rowErrs rawSku rawPc rawPrice
    if errs ≠ [] then
      { st with errors := st.errors ++ [⟨idx, rowContext rawSku rawPc, joinSemi errs⟩] }
    else
      let docId := rawSku ++ "|" ++ rawPc
      if st.seen.contains docId then
        { st with errors := st.errors ++ [⟨idx, rowContext rawSku rawPc, "Duplicate id within file"⟩] }
      else
        { st with docs := st.docs ++ [build_doc rawSku rawPc (normalize_price rawPrice).2.1],
                  seen := docId :: st.seen }

/-- The CSV row loop `for idx, row in enumerate(reader, start=2)`. -/
def csvRun : VState → Nat → List Row → VState
  | st, _, [] => st
  | st, idx, r :: rs => csvRun (csvRowStep st idx r) (idx + 1) rs

/-- Source `_validate_from_reader`: check for a missing header row, then
for required logical fields with no alias among the headers, then run
the row loop starting at row index 2. -/
def validate_from_reader (fieldnames : List String) (rows : List Row) : VState :=
  let fns := fieldnames.map (fun h => pyLower (pyStrip h))
  if fns = [] then
    { emptyState with errors := [⟨1, "header", "Missing header row"⟩] }
  else
    let missing := ["sku", "postCode", "price"].filter
      (fun key => ¬(CSV_FIELD_ALIASES key).any (fun a => fns.contains (pyLower a)))
    if missing ≠ [] then
      { emptyState with errors := [⟨1, "header", "Missing required columns: " ++ joinComma missing⟩] }
    else csvRun emptyState 2 rows

/-- One element of a top-level JSON array: an object (a dict) or any
other JSON value. -/
inductive JItem where
  | obj (row : Row) : JItem
  | nonobj : JItem
deriving DecidableEq

/-- The array branch of `validate_json`: each item is validated with its
1-based array index; a non-object item yields an error entry. -/
def jsonArrayRun : VState → Nat → List JItem → VState
  | st, _, [] => st
  | st, i, .obj r :: rest => jsonArrayRun (validate_obj st i r) (i + 1) rest
  | st, i, .nonobj :: rest =>
    jsonArrayRun { st with errors := st.errors ++ [⟨i, "", "Each item must be a JSON object"⟩] } (i + 1) rest

/-- Source `validate_json` when the file parses as a JSON array. -/
def validate_json_array (items : List JItem) : VState := jsonArrayRun emptyState 1 items

/-- One line of an NDJSON fallback parse: blank (skipped), unparseable
(with the parser's message), a non-object value, or an object. -/
inductive JLine where
  | blank : JLine
  | bad (msg : String) : JLine
  | nonobj : JLine
  | obj (row : Row) : JLine
deriving DecidableEq

/-- The NDJSON fallback loop of `validate_json`: lines are numbered from
1; blank lines are skipped; parse failures and non-objects yield error
entries; objects are validated. -/
def ndjsonRun : VState → Nat → List JLine → VState
  | st, _, [] => st
  | st, i, .blank :: rest => ndjsonRun st (i + 1) rest
  | st, i, .bad m :: rest =>
    ndjsonRun { st with errors := st.errors ++ [⟨i, "", "Invalid JSON: " ++ m⟩] } (i + 1) rest
  | st, i, .nonobj :: rest =>
    ndjsonRun { st with errors := st.errors ++ [⟨i, "", "Line is not a JSON object"⟩] } (i + 1) rest
  | st, i, .obj r :: rest => ndjsonRun (validate_obj st i r) (i + 1) rest

/-- Source `validate_json` in NDJSON fallback mode. -/
def validate_ndjson (lines : List JLine) : VState := ndjsonRun emptyState 1 lines

/-- Python slice `l[s:e]` for `0 ≤ s ≤ e`. -/
def pySlice {α : Type} (l : List α) (s e : Nat) : List α := (l.drop s).take (e - s)

/-- Left-pad a decimal string with zeros to width `w`, the effect of
Python's `f"{i:03d}"` for non-negative `i`. -/
def padZeros (w : Nat) (s : String) : String :=
  ⟨List.replicate (w - s.data.length) '0' ++ s.data⟩

/-- Python `s.lstrip("0")`. -/
def lstripZeros (s : String) : String := ⟨s.data.dropWhile (fun c => c = '0')⟩

/-- The CSV-row image of a record (source `export_files` line building
`csv_rows`): leading zeros are stripped from the postcode. -/
def csvRowOfDoc (d : Doc) : Doc :=
  ⟨d.sku, if d.postCode = "" then "" else lstripZeros d.postCode, d.price⟩

/-- The JSON-row image of a record (source `export_files` line building
`json_rows`): an identity copy. -/
def jsonRowOfDoc (d : Doc) : Doc := ⟨d.sku, d.postCode, d.price⟩

/-- One output file produced by an export: a CSV or JSON record file
(with its batch and group path labels) or the error CSV (with its path
and rendered lines). -/
inductive OutFile where
  | recordsCsv (batch group : String) (rows : List Doc) : OutFile
  | recordsJson (batch group : String) (rows : List Doc) : OutFile
  | errorsCsv (path : String) (fileLines : List String) : OutFile
deriving DecidableEq

/-- The export options read from the UI state: output formats, batch
mode, rows-per-file (None when the integer field fails to parse), group
column, and the `str()` rendering of a float price (a parameter of the
model, since Python's float-to-string conversion is outside the
embedding; no claim depends on it). -/
structure ExportOpts where
  writeCsv : Bool
  writeJson : Bool
  batchEnabled : Bool
  mode : String
  rowsPerFile : Option Int
  groupColumn : String
  priceStr : ℚ → String

/-- Quote one CSV field as Python's `csv` module does with
QUOTE_MINIMAL: wrap in double quotes (doubling inner quotes) when the
field contains a comma, quote, or line break. -/
def csvQuoteField (s : String) : String :=
  if s.data.any (fun c => c = ',' ∨ c = '"' ∨ c = '\n' ∨ c = '\r') then
    "\"" ++ ⟨s.data.foldr (fun c acc => if c = '"' then '"' :: '"' :: acc else c :: acc) []⟩ ++ "\""
  else s

/-- One rendered line of the error CSV. -/
def renderErrRow (e : VError) : String :=
  csvQuoteField (toString e.row) ++ "," ++ csvQuoteField e.context ++ "," ++ csvQuoteField e.error

/-- The rendered error CSV: the header `row,context,error` followed by
one line per error. -/
def renderErrorsCsv (errs : List VError) : List String :=
  "row,context,error" :: errs.map renderErrRow

/-- Source `_export_single`: one CSV and/or one JSON file covering all
records, with batch and group labels `"all"`. -/
def export_single (csvRows jsonRows : List Doc) (o : ExportOpts) : List OutFile :=
  (if o.writeCsv then [OutFile.recordsCsv "all" "all" csvRows] else []) ++
  (if o.writeJson then [OutFile.recordsJson "all" "all" jsonRows] else [])

/-- Source `_export_by_rows`: nothing is written for an empty record
list; otherwise `ceil(total/chunk)` batches of consecutive slices, the
batch label being `part` followed by the zero-padded sequence number. -/
def export_by_rows (csvRows jsonRows : List Doc) (chunk : Nat) (o : ExportOpts) : List OutFile :=
  let total := csvRows.length
  if total = 0 then []
  else
    let parts := (total + chunk - 1) / chunk
    ((List.range parts).map (fun i =>
      let s := i * chunk
      let e := min ((i + 1) * chunk) total
      let batchId := "part" ++ padZeros 3 (toString (i + 1))
      (if o.writeCsv then [OutFile.recordsCsv batchId "all" (pySlice csvRows s e)] else []) ++
      (if o.writeJson then [OutFile.recordsJson batchId "all" (pySlice jsonRows s e)] else []))).flatten

/-- Source `key_for_json`: the group value of a JSON row.  For any
column other than the three known fields the row lookup misses (the
row's only keys are `postCode`, `sku`, `price`, and the lookup key is
lowercased), so the value is always `"UNK"`. -/
def key_for_json (priceStr : ℚ → String) (keyLower : String) (d : Doc) : String :=
  if keyLower = "postcode" ∨ keyLower = "post_code" ∨ keyLower = "post code" then
    (if d.postCode = "" then "UNK" else d.postCode)
  else if keyLower = "sku" then (if d.sku = "" then "UNK" else d.sku)
  else if keyLower = "price" then (if priceStr d.price = "" then "UNK" else priceStr d.price)
  else "UNK"

/-- The grouping key of one record pair, source line
`g = (key_for_json(j) or "UNK").strip() or "UNK"`. -/
def groupValue (priceStr : ℚ → String) (keyLower : String) (d : Doc) : String :=
  let g := key_for_json priceStr keyLower d
  let g := if g = "" then "UNK" else g
  let g := pyStrip g
  if g = "" then "UNK" else g

/-- Append `v` to the group keyed `k`, creating the group at the end on
first sight — the behaviour of a Python `defaultdict(list)` iterated in
insertion order. -/
def insertGroup (gs : List (String × List (Doc × Doc))) (k : String) (v : Doc × Doc) :
    List (String × List (Doc × Doc)) :=
  match gs with
  | [] => [(k, [v])]
  | (k', vs) :: rest =>
    if k' = k then (k', vs ++ [v]) :: rest else (k', vs) :: insertGroup rest k v

/-- Partition the zipped record pairs by group key, in first-seen order. -/
def buildGroups (key : Doc → String) (pairs : List (Doc × Doc)) :
    List (String × List (Doc × Doc)) :=
  pairs.foldl (fun gs p => insertGroup gs (key p.1) p) []

/-- The per-character rule of `_sanitize_group`: keep alphanumerics
(Python `isalnum`) and `-`, `_`, `.`; every other character becomes `_`. -/
def sanitizeChar (c : Char) : Char :=
  if pyIsAlnum c || c = '-' || c = '_' || c = '.' then c else '_'

/-- Source `_sanitize_group`: apply the character rule, truncate to 80
characters, and replace an empty result with `"UNK"`. -/
def sanitize_group (s : String) : String :=
  let out : String := ⟨s.data.map sanitizeChar⟩
  if out = "" then "UNK" else ⟨out.data.take 80⟩

/-- The sanitization rule as the specification words it, for comparison
with the source's `sanitize_group`: replace every character outside the
ASCII class `[A-Za-z0-9-_.]` with `_`, truncate to 80 characters, and
replace an empty result with `"UNK"`. -/
def sanitizeSpecAscii (s : String) : String :=
  let out : String := ⟨s.data.map (fun c =>
    if ('A' ≤ c && c ≤ 'Z') || ('a' ≤ c && c ≤ 'z') || ('0' ≤ c && c ≤ '9') ||
       c = '-' || c = '_' || c = '.' then c else '_')⟩
  if out = "" then "UNK" else ⟨out.data.take 80⟩

/-- Source `_export_by_group`: zip the JSON and CSV rows, group them by
the resolved group value, and emit per-group files whose group label is
the sanitized group value. -/
def export_by_group (jsonRows csvRows : List Doc) (groupCol : String) (o : ExportOpts) :
    List OutFile :=
  let keyLower := pyLower groupCol
  let groups := buildGroups (groupValue o.priceStr keyLower) (jsonRows.zip csvRows)
  (groups.map (fun g =>
    let safeGroup := sanitize_group g.1
    (if o.writeCsv then [OutFile.recordsCsv "group" safeGroup (g.2.map (fun p => p.2))] else []) ++
    (if o.writeJson then [OutFile.recordsJson "group" safeGroup (g.2.map (fun p => p.1))] else []))).flatten

/-- Source `export_files`, from the point where the last validation
result is fixed: abort (an error dialog, no files) when there are no
valid records but there are errors; otherwise derive the CSV/JSON row
images, write the record files for the selected batch mode, and append
the error CSV whenever any errors exist. -/
def recordFilesOf (docs : List Doc) (o : ExportOpts) : List OutFile :=
  let csvRows := docs.map csvRowOfDoc
  let jsonRows := docs.map jsonRowOfDoc
  if o.batchEnabled then
    if o.mode = "rows" then
      let chunk := (match o.rowsPerFile with
        | some n => max 1 n
        | none => 1000).toNat
      export_by_rows csvRows jsonRows chunk o
    else export_by_group jsonRows csvRows (pyStrip o.groupColumn) o
  else export_single csvRows jsonRows o

def export_files (baseName : String) (docs : List Doc) (errs : List VError) (o : ExportOpts) :
    Option (List OutFile) :=
  if docs = [] ∧ errs ≠ [] then none
  else
    some (recordFilesOf docs o ++
      (if errs ≠ [] then [.errorsCsv (baseName ++ "_errors.csv") (renderErrorsCsv errs)] else []))

/-- The resolved raw error list of a row. -/
def rowErrsOf (r : Row) : List String :=
  rowErrs (rowRaws r).1 (rowRaws r).2.1 (rowRaws r).2.2

/-- The identity key of a row, `raw_sku + "|" + raw_pc`, built from the
once-normalized raw field values. -/
def rowKey (r : Row) : String := (rowRaws r).1 ++ "|" ++ (rowRaws r).2.1

/-- The raw data an accepted row contributes: its once-normalized sku
and postcode and its parsed price. -/
def rowTriple (r : Row) : String × String × ℚ :=
  ((rowRaws r).1, (rowRaws r).2.1, (normalize_price (rowRaws r).2.2).2.1)

/-- The identity key of an accepted-row triple. -/
def tripleKey (t : String × String × ℚ) : String := t.1 ++ "|" ++ t.2.1

/-- The record an accepted-row triple is stored as. -/
def tripleDoc (t : String × String × ℚ) : Doc := build_doc t.1 t.2.1 t.2.2

/-- The record a row would be stored as if accepted. -/
def rowDoc (r : Row) : Doc := tripleDoc (rowTriple r)

/-- Replay of the acceptance decision of the validation loop, carrying
the seen-key set and collecting the raw triple of every accepted row.
This exposes the identity keys the loop deduplicates on, which the
stored records do not retain (they re-normalize the fields). -/
def acceptedTriples : List String → List Row → List (String × String × ℚ)
  | _, [] => []
  | seen, r :: rs =>
    if rowErrsOf r ≠ [] then acceptedTriples seen rs
    else if seen.contains (rowKey r) then acceptedTriples seen rs
    else rowTriple r :: acceptedTriples (rowKey r :: seen) rs

/-- The row carried by a JSON array item, if it is an object. -/
def itemRow : JItem → Option Row
  | .obj r => some r
  | .nonobj => none

/-- The row carried by an NDJSON line, if it is an object. -/
def lineRow : JLine → Option Row
  | .obj r => some r
  | _ => none

/-- The record rows carried by an output file (empty for the error CSV). -/
def rowsOfFile : OutFile → List Doc
  | .recordsCsv _ _ rows => rows
  | .recordsJson _ _ rows => rows
  | .errorsCsv _ _ => []

/-- The batch label of an output file (empty for the error CSV). -/
def batchOfFile : OutFile → String
  | .recordsCsv b _ _ => b
  | .recordsJson b _ _ => b
  | .errorsCsv _ _ => ""

/-- The group label of an output file (empty for the error CSV). -/
def groupOfFile : OutFile → String
  | .recordsCsv _ g _ => g
  | .recordsJson _ g _ => g
  | .errorsCsv _ _ => ""

theorem validate_obj_err (st : VState) (i : Nat) (r : Row) (h : rowErrsOf r ≠ []) :
    validate_obj st i r =
      { st with errors := st.errors ++
          [⟨i, rowContext (rowRaws r).1 (rowRaws r).2.1, joinSemi (rowErrsOf r)⟩] } := by
  simp only [rowErrsOf] at h
  simp only [validate_obj, rowErrsOf, if_pos h]

theorem validate_obj_dup (st : VState) (i : Nat) (r : Row) (h : rowErrsOf r = [])
    (h2 : st.seen.contains (rowKey r) = true) :
    validate_obj st i r =
      { st with errors := st.errors ++
          [⟨i, rowContext (rowRaws r).1 (rowRaws r).2.1, "Duplicate id within file"⟩] } := by
  simp only [rowErrsOf] at h
  simp only [rowKey] at h2
  simp only [validate_obj, h, h2, ne_eq, not_true_eq_false, if_false, if_pos, if_true,
    not_false_eq_true, reduceIte]

theorem validate_obj_acc (st : VState) (i : Nat) (r : Row) (h : rowErrsOf r = [])
    (h2 : st.seen.contains (rowKey r) = false) :
    validate_obj st i r =
      { st with docs := st.docs ++ [rowDoc r], seen := rowKey r :: st.seen } := by
  simp only [rowErrsOf] at h
  simp only [rowKey] at h2
  simp only [validate_obj, h, h2, ne_eq, not_true_eq_false, if_false, reduceIte, rowDoc,
    rowTriple, tripleDoc, rowKey, Bool.false_eq_true]

theorem csvRowStep_skip (st : VState) (i : Nat) (r : Row)
    (h : (rowRaws r).1 = "" ∧ (rowRaws r).2.1 = "" ∧ (rowRaws r).2.2 = "") :
    csvRowStep st i r = st := by
  simp only [csvRowStep, h.1, h.2.1, h.2.2, and_self, reduceIte]

theorem csvRowStep_eq_validate_obj (st : VState) (i : Nat) (r : Row)
    (h : ¬((rowRaws r).1 = "" ∧ (rowRaws r).2.1 = "" ∧ (rowRaws r).2.2 = "")) :
    csvRowStep st i r = validate_obj st i r := by
  simp only [csvRowStep, validate_obj, if_neg h]

theorem rowErrs_ne_nil_of_sku_empty (rawSku rawPc rawPrice : String) (h : rawSku = "") :
    rowErrs rawSku rawPc rawPrice ≠ [] := by
  simp [rowErrs, h]

theorem csvRowStep_of_errs (st : VState) (i : Nat) (r : Row) (h : rowErrsOf r ≠ []) :
    (csvRowStep st i r).docs = st.docs ∧ (csvRowStep st i r).seen = st.seen := by
  by_cases hc : (rowRaws r).1 = "" ∧ (rowRaws r).2.1 = "" ∧ (rowRaws r).2.2 = ""
  · rw [csvRowStep_skip st i r hc]; exact ⟨rfl, rfl⟩
  · rw [csvRowStep_eq_validate_obj st i r hc, validate_obj_err st i r h]
    exact ⟨rfl, rfl⟩

theorem tripleKey_rowTriple (r : Row) : tripleKey (rowTriple r) = rowKey r := rfl

theorem acceptedTriples_cons_err (seen : List String) (r : Row) (rs : List Row)
    (h : rowErrsOf r ≠ []) :
    acceptedTriples seen (r :: rs) = acceptedTriples seen rs := by
  simp [acceptedTriples, h]

theorem acceptedTriples_cons_dup (seen : List String) (r : Row) (rs : List Row)
    (h : rowErrsOf r = []) (h2 : seen.contains (rowKey r) = true) :
    acceptedTriples seen (r :: rs) = acceptedTriples seen rs := by
  simp only [acceptedTriples, h, h2]
  simp

theorem acceptedTriples_cons_acc (seen : List String) (r : Row) (rs : List Row)
    (h : rowErrsOf r = []) (h2 : seen.contains (rowKey r) = false) :
    acceptedTriples seen (r :: rs) = rowTriple r :: acceptedTriples (rowKey r :: seen) rs := by
  simp only [acceptedTriples, h, h2]
  simp

theorem csvRun_docs : ∀ (rows : List Row) (st : VState) (i : Nat),
    (csvRun st i rows).docs = st.docs ++ (acceptedTriples st.seen rows).map tripleDoc
  | [], st, i => by simp [csvRun, acceptedTriples]
  | r :: rs, st, i => by
    simp only [csvRun]
    by_cases he : rowErrsOf r = []
    · by_cases hc : (rowRaws r).1 = "" ∧ (rowRaws r).2.1 = "" ∧ (rowRaws r).2.2 = ""
      · exact absurd he (rowErrs_ne_nil_of_sku_empty _ _ _ hc.1)
      · rw [csvRowStep_eq_validate_obj st i r hc]
        by_cases hd : st.seen.contains (rowKey r) = true
        · rw [validate_obj_dup st i r he hd, acceptedTriples_cons_dup st.seen r rs he hd]
          exact csvRun_docs rs _ (i + 1)
        · have hd' : st.seen.contains (rowKey r) = false := by
            revert hd; cases st.seen.contains (rowKey r) <;> simp
          rw [validate_obj_acc st i r he hd',
            acceptedTriples_cons_acc st.seen r rs he hd',
            csvRun_docs rs _ (i + 1)]
          simp [tripleDoc, rowDoc]
    · have hstep := csvRowStep_of_errs st i r he
      rw [acceptedTriples_cons_err st.seen r rs he, csvRun_docs rs _ (i + 1), hstep.1, hstep.2]

theorem jsonArrayRun_docs : ∀ (items : List JItem) (st : VState) (i : Nat),
    (jsonArrayRun st i items).docs =
      st.docs ++ (acceptedTriples st.seen (items.filterMap itemRow)).map tripleDoc
  | [], st, i => by simp [jsonArrayRun, acceptedTriples]
  | .nonobj :: rest, st, i => by
    simp only [jsonArrayRun, List.filterMap_cons, itemRow]
    exact jsonArrayRun_docs rest _ (i + 1)
  | .obj r :: rest, st, i => by
    simp only [jsonArrayRun, List.filterMap_cons, itemRow]
    by_cases he : rowErrsOf r = []
    · by_cases hd : st.seen.contains (rowKey r) = true
      · rw [validate_obj_dup st i r he hd,
          acceptedTriples_cons_dup st.seen r (rest.filterMap itemRow) he hd]
        exact jsonArrayRun_docs rest _ (i + 1)
      · have hd' : st.seen.contains (rowKey r) = false := by
          revert hd; cases st.seen.contains (rowKey r) <;> simp
        rw [validate_obj_acc st i r he hd',
          acceptedTriples_cons_acc st.seen r (rest.filterMap itemRow) he hd',
          jsonArrayRun_docs rest _ (i + 1)]
        simp [tripleDoc, rowDoc]
    · rw [validate_obj_err st i r he,
        acceptedTriples_cons_err st.seen r (rest.filterMap itemRow) he,
        jsonArrayRun_docs rest _ (i + 1)]

theorem ndjsonRun_docs : ∀ (ls : List JLine) (st : VState) (i : Nat),
    (ndjsonRun st i ls).docs =
      st.docs ++ (acceptedTriples st.seen (ls.filterMap lineRow)).map tripleDoc
  | [], st, i => by simp [ndjsonRun, acceptedTriples]
  | .blank :: rest, st, i => by
    simp only [ndjsonRun, List.filterMap_cons, lineRow]
    exact ndjsonRun_docs rest _ (i + 1)
  | .bad m :: rest, st, i => by
    simp only [ndjsonRun, List.filterMap_cons, lineRow]
    exact ndjsonRun_docs rest _ (i + 1)
  | .nonobj :: rest, st, i => by
    simp only [ndjsonRun, List.filterMap_cons, lineRow]
    exact ndjsonRun_docs rest _ (i + 1)
  | .obj r :: rest, st, i => by
    simp only [ndjsonRun, List.filterMap_cons, lineRow]
    by_cases he : rowErrsOf r = []
    · by_cases hd : st.seen.contains (rowKey r) = true
      · rw [validate_obj_dup st i r he hd,
          acceptedTriples_cons_dup st.seen r (rest.filterMap lineRow) he hd]
        exact ndjsonRun_docs rest _ (i + 1)
      · have hd' : st.seen.contains (rowKey r) = false := by
          revert hd; cases st.seen.contains (rowKey r) <;> simp
        rw [validate_obj_acc st i r he hd',
          acceptedTriples_cons_acc st.seen r (rest.filterMap lineRow) he hd',
          ndjsonRun_docs rest _ (i + 1)]
        simp [tripleDoc, rowDoc]
    · rw [validate_obj_err st i r he,
        acceptedTriples_cons_err st.seen r (rest.filterMap lineRow) he,
        ndjsonRun_docs rest _ (i + 1)]

theorem acceptedTriples_keys : ∀ (rows : List Row) (seen : List String),
    ((acceptedTriples seen rows).map tripleKey).Nodup ∧
      ∀ k ∈ (acceptedTriples seen rows).map tripleKey, k ∉ seen
  | [], seen => by simp [acceptedTriples]
  | r :: rs, seen => by
    by_cases he : rowErrsOf r = []
    · by_cases hd : seen.contains (rowKey r) = true
      · rw [acceptedTriples_cons_dup seen r rs he hd]
        exact acceptedTriples_keys rs seen
      · have hd' : seen.contains (rowKey r) = false := by
          revert hd; cases seen.contains (rowKey r) <;> simp
        have hnm : rowKey r ∉ seen := by simpa using hd'
        rw [acceptedTriples_cons_acc seen r rs he hd']
        have ih := acceptedTriples_keys rs (rowKey r :: seen)
        refine ⟨?_, ?_⟩
        · simp only [List.map_cons, tripleKey_rowTriple, List.nodup_cons]
          refine ⟨fun hmem => ?_, ih.1⟩
          exact (ih.2 _ hmem) (List.mem_cons_self _ _)
        · intro k hk
          simp only [List.map_cons, tripleKey_rowTriple, List.mem_cons] at hk
          rcases hk with rfl | hk
          · exact hnm
          · intro hks
            exact (ih.2 _ hk) (List.mem_cons_of_mem _ hks)
    · rw [acceptedTriples_cons_err seen r rs he]
      exact acceptedTriples_keys rs seen

theorem acceptedTriples_sublist : ∀ (rows : List Row) (seen : List String),
    List.Sublist (acceptedTriples seen rows) (rows.map rowTriple)
  | [], seen => by simp [acceptedTriples]
  | r :: rs, seen => by
    by_cases he : rowErrsOf r = []
    · by_cases hd : seen.contains (rowKey r) = true
      · rw [acceptedTriples_cons_dup seen r rs he hd]
        exact (acceptedTriples_sublist rs seen).cons _
      · have hd' : seen.contains (rowKey r) = false := by
          revert hd; cases seen.contains (rowKey r) <;> simp
        rw [acceptedTriples_cons_acc seen r rs he hd']
        exact (acceptedTriples_sublist rs (rowKey r :: seen)).cons₂ _
    · rw [acceptedTriples_cons_err seen r rs he]
      exact (acceptedTriples_sublist rs seen).cons _

theorem validate_from_reader_docs (fns : List String) (rows : List Row) :
    (validate_from_reader fns rows).docs = [] ∨
      (validate_from_reader fns rows).docs = (acceptedTriples [] rows).map tripleDoc := by
  simp only [validate_from_reader]
  split
  · left; rfl
  · split
    · left; rfl
    · right
      rw [csvRun_docs rows emptyState 2]
      rfl

theorem map_tripleDoc_rowTriple (rows : List Row) :
    (rows.map rowTriple).map tripleDoc = rows.map rowDoc := by
  rw [List.map_map]; rfl

/-- C1 (amended): in every validation run the accepted records are
exactly the record images of `acceptedTriples` — the replay of the
loop's own acceptance decision, which carries the seen-key set and
records each accepted row's once-normalized raw fields.  This holds for
the CSV/pasted reader source (where a header failure instead yields no
records at all), the JSON-array source, and the NDJSON source.  The
replay's identity keys `raw_sku + "|" + raw_pc` — the very strings the
deduplication set tracks — are pairwise distinct and never lie in the
starting seen-set, and the records appear in input row order (a sublist
of the per-row record images).  Whenever a row passes field validation
and its key is already seen, the row is reported with exactly the error
"Duplicate id within file" and is excluded (in both the JSON-object
step and the CSV-row step).  The claim's stronger reading —
distinctness of keys recomputed from the *stored* record fields, and a
duplicate report for *every* later row with an equal key — fails,
because stored records re-normalize the fields and because
field-invalid rows are reported with their field errors instead. -/
theorem c1_unique_keys_and_dedup :
    (∀ (fns : List String) (rows : List Row),
      (validate_from_reader fns rows).docs = [] ∨
      (validate_from_reader fns rows).docs = (acceptedTriples [] rows).map tripleDoc) ∧
    (∀ items : List JItem,
      (validate_json_array items).docs =
        (acceptedTriples [] (items.filterMap itemRow)).map tripleDoc) ∧
    (∀ ls : List JLine,
      (validate_ndjson ls).docs =
        (acceptedTriples [] (ls.filterMap lineRow)).map tripleDoc) ∧
    (∀ (seen : List String) (rows : List Row),
      ((acceptedTriples seen rows).map tripleKey).Nodup ∧
      ∀ k ∈ (acceptedTriples seen rows).map tripleKey, k ∉ seen) ∧
    (∀ (fns : List String) (rows : List Row),
      List.Sublist (validate_from_reader fns rows).docs (rows.map rowDoc)) ∧
    (∀ items : List JItem,
      List.Sublist (validate_json_array items).docs ((items.filterMap itemRow).map rowDoc)) ∧
    (∀ ls : List JLine,
      List.Sublist (validate_ndjson ls).docs ((ls.filterMap lineRow).map rowDoc)) ∧
    (∀ (st : VState) (i : Nat) (r : Row), rowErrsOf r = [] →
      st.seen.contains (rowKey r) = true →
      validate_obj st i r = { st with errors := st.errors ++
        [⟨i, rowContext (rowRaws r).1 (rowRaws r).2.1, "Duplicate id within file"⟩] }) ∧
    (∀ (st : VState) (i : Nat) (r : Row), rowErrsOf r = [] →
      st.seen.contains (rowKey r) = true →
      csvRowStep st i r = { st with errors := st.errors ++
        [⟨i, rowContext (rowRaws r).1 (rowRaws r).2.1, "Duplicate id within file"⟩] }) := by
  have hjson : ∀ items : List JItem,
      (validate_json_array items).docs =
        (acceptedTriples [] (items.filterMap itemRow)).map tripleDoc := by
    intro items
    unfold validate_json_array
    rw [jsonArrayRun_docs items emptyState 1]
    rfl
  have hnd : ∀ ls : List JLine,
      (validate_ndjson ls).docs =
        (acceptedTriples [] (ls.filterMap lineRow)).map tripleDoc := by
    intro ls
    unfold validate_ndjson
    rw [ndjsonRun_docs ls emptyState 1]
    rfl
  refine ⟨validate_from_reader_docs, hjson, hnd, ?_, ?_, ?_, ?_, ?_, ?_⟩
  · intro seen rows
    exact acceptedTriples_keys rows seen
  · intro fns rows
    rcases validate_from_reader_docs fns rows with h | h
    · rw [h]
      exact List.nil_sublist _
    · rw [h, ← map_tripleDoc_rowTriple]
      exact (acceptedTriples_sublist rows []).map tripleDoc
  · intro items
    rw [hjson items, ← map_tripleDoc_rowTriple]
    exact (acceptedTriples_sublist (items.filterMap itemRow) []).map tripleDoc
  · intro ls
    rw [hnd ls, ← map_tripleDoc_rowTriple]
    exact (acceptedTriples_sublist (ls.filterMap lineRow) []).map tripleDoc
  · intro st i r he hd
    exact validate_obj_dup st i r he hd
  · intro st i r he hd
    have hc : ¬((rowRaws r).1 = "" ∧ (rowRaws r).2.1 = "" ∧ (rowRaws r).2.2 = "") := by
      intro hc
      exact rowErrs_ne_nil_of_sku_empty _ _ _ hc.1 he
    rw [csvRowStep_eq_validate_obj st i r hc]
    exact validate_obj_dup st i r he hd

/-- C1, counterexample to the claim as stated: a run in which two
accepted records carry identical identity keys computed from their
stored (re-normalized) fields.  The first row's sku normalizes once to
`"A1"` with quotes (so its deduplication key differs from the second
row's), but the stored record re-normalizes it to `A1`. -/
theorem c1_record_keys_collide :
    ((validate_from_reader ["sku", "postcode", "price"]
        ([[("sku", PyVal.vstr "\" \"A1\" \""), ("postcode", PyVal.vstr "2000"),
           ("price", PyVal.vstr "10")],
          [("sku", PyVal.vstr "A1"), ("postcode", PyVal.vstr "2000"),
           ("price", PyVal.vstr "10")]] : List Row)).docs.map
      (fun d => d.sku ++ "|" ++ d.postCode)) = ["A1|2000", "A1|2000"] ∧
    ¬ (["A1|2000", "A1|2000"] : List String).Nodup := by
  constructor
  · decide
  · decide

/-- C1, witness: the duplicate-report clause applied to a concrete state
and row. -/
theorem c1_dup_clause_witness :
    rowErrsOf [("sku", PyVal.vstr "A"), ("postcode", PyVal.vstr "2000"),
      ("price", PyVal.vstr "1")] = [] ∧
    (["A|2000"] : List String).contains
      (rowKey [("sku", PyVal.vstr "A"), ("postcode", PyVal.vstr "2000"),
        ("price", PyVal.vstr "1")]) = true ∧
    validate_obj ⟨[], [], [], ["A|2000"]⟩ 5
        [("sku", PyVal.vstr "A"), ("postcode", PyVal.vstr "2000"), ("price", PyVal.vstr "1")] =
      ⟨[], [⟨5, "sku=A, postCode=2000", "Duplicate id within file"⟩], [], ["A|2000"]⟩ :=
  ⟨by decide, by decide,
    c1_unique_keys_and_dedup.2.2.2.2.2.2.2.1 ⟨[], [], [], ["A|2000"]⟩ 5
      [("sku", PyVal.vstr "A"), ("postcode", PyVal.vstr "2000"), ("price", PyVal.vstr "1")]
      (by decide) (by decide)⟩

/-- C2 (amended): a row whose three resolved raw fields all normalize to
the empty string is silently skipped by the CSV/pasted-text row step —
no record and no error — but the JSON object step has no such skip: it
emits a ValidationError "sku missing; postCode missing; price missing"
(and still no record). -/
theorem c2_all_empty_rows :
    (∀ (st : VState) (i : Nat) (r : Row),
      (rowRaws r).1 = "" → (rowRaws r).2.1 = "" → (rowRaws r).2.2 = "" →
      csvRowStep st i r = st) ∧
    (∀ (st : VState) (i : Nat) (r : Row),
      (rowRaws r).1 = "" → (rowRaws r).2.1 = "" → (rowRaws r).2.2 = "" →
      validate_obj st i r = { st with errors := st.errors ++
        [⟨i, "sku=, postCode=", "sku missing; postCode missing; price missing"⟩] }) := by
  constructor
  · intro st i r h1 h2 h3
    exact csvRowStep_skip st i r ⟨h1, h2, h3⟩
  · intro st i r h1 h2 h3
    have he : rowErrsOf r ≠ [] := by
      simp only [rowErrsOf, h1, h2, h3]
      decide
    rw [validate_obj_err st i r he]
    simp only [rowErrsOf, h1, h2, h3]
    rfl

/-- C2, counterexample to the claim as stated: an all-empty JSON object
is not silently skipped — it produces a ValidationError. -/
theorem c2_json_empty_not_skipped :
    (validate_json_array [JItem.obj []]).errors ≠ [] ∧
    validate_json_array [JItem.obj []] =
      ⟨[], [⟨1, "sku=, postCode=", "sku missing; postCode missing; price missing"⟩], [], []⟩ := by
  constructor
  · decide
  · decide

/-- C2, witness: the amended theorem applied to the empty row. -/
theorem c2_witness :
    (rowRaws ([] : Row)).1 = "" ∧ (rowRaws ([] : Row)).2.1 = "" ∧
    (rowRaws ([] : Row)).2.2 = "" ∧
    csvRowStep emptyState 7 ([] : Row) = emptyState ∧
    validate_obj emptyState 7 ([] : Row) = { emptyState with errors := emptyState.errors ++
      [⟨7, "sku=, postCode=", "sku missing; postCode missing; price missing"⟩] } :=
  ⟨by decide, by decide, by decide,
   c2_all_empty_rows.1 emptyState 7 [] (by decide) (by decide) (by decide),
   c2_all_empty_rows.2 emptyState 7 [] (by decide) (by decide) (by decide)⟩

/-- C10: a record whose normalized postCode is a non-empty all-zero
string (such as "0000") is written to the CSV row image with an empty
postCode — stripping leading zeros removes every character — while the
JSON row image keeps the postCode unmodified. -/
theorem c10_all_zero_postcode (d : Doc) (hne : d.postCode ≠ "")
    (hz : ∀ c ∈ d.postCode.data, c = '0') :
    (csvRowOfDoc d).postCode = "" ∧ (jsonRowOfDoc d).postCode = d.postCode := by
  constructor
  · simp only [csvRowOfDoc, if_neg hne]
    have h : d.postCode.data.dropWhile (fun c => c = '0') = [] := by
      rw [List.dropWhile_eq_nil_iff]
      intro x hx
      simp [hz x hx]
    simp [lstripZeros, h]
  · rfl

/-- C10, witness: the record `{sku := "A", postCode := "0000", price := 10}`. -/
theorem c10_witness :
    ((⟨"A", "0000", 10⟩ : Doc).postCode ≠ "") ∧
    (∀ c ∈ (⟨"A", "0000", 10⟩ : Doc).postCode.data, c = '0') ∧
    (csvRowOfDoc ⟨"A", "0000", 10⟩).postCode = "" ∧
    (jsonRowOfDoc ⟨"A", "0000", 10⟩).postCode = "0000" :=
  ⟨by decide, by decide,
   (c10_all_zero_postcode ⟨"A", "0000", 10⟩ (by decide) (by decide)).1,
   (c10_all_zero_postcode ⟨"A", "0000", 10⟩ (by decide) (by decide)).2⟩

theorem dropWhile_replicate_append (p : Char → Bool) (c : Char) (hc : p c = true) :
    ∀ (n : Nat) (l : List Char), (List.replicate n c ++ l).dropWhile p = l.dropWhile p
  | 0, l => by simp
  | n + 1, l => by
    simp only [List.replicate_succ, List.cons_append, List.dropWhile_cons, hc, if_true]
    exact dropWhile_replicate_append p c hc n l

theorem stripEnds_quote_wrap (a b : Nat) (core : List Char)
    (h1 : ∀ c, core.head? = some c → c ≠ '"')
    (h2 : ∀ c, core.getLast? = some c → c ≠ '"') :
    stripEnds (fun c => c = '"') (List.replicate a '"' ++ core ++ List.replicate b '"') = core := by
  unfold stripEnds dropEndWhile
  rw [List.append_assoc, dropWhile_replicate_append _ '"' (by decide)]
  cases core with
  | nil =>
    have hb : (List.replicate b '"').dropWhile (fun c => c = '"') = [] := by
      rw [List.dropWhile_eq_nil_iff]
      intro x hx
      simp [List.eq_of_mem_replicate hx]
    simp [hb]
  | cons c t =>
    have hc := h1 c rfl
    rw [List.cons_append, List.dropWhile_cons, if_neg (by simp [hc])]
    cases hrev : (c :: t).reverse with
    | nil => simp at hrev
    | cons x xs =>
      have hx : (c :: t).getLast? = some x := by
        rw [← List.head?_reverse, hrev]
        rfl
      have hxq := h2 x hx
      rw [show (c :: (t ++ List.replicate b '"')).reverse =
            List.replicate b '"' ++ (c :: t).reverse by
          rw [← List.cons_append, List.reverse_append, List.reverse_replicate]]
      rw [dropWhile_replicate_append _ '"' (by decide), hrev, List.dropWhile_cons,
        if_neg (by simp [hxq]), ← hrev, List.reverse_reverse]

/-- C5 (amended): `normalize_str` maps null to the empty string,
stringifies and trims numbers, and for strings trims whitespace, then
removes ALL leading and trailing double-quote characters (every layer,
matched or not — not just one), then trims again: whenever the trimmed
input splits as quote characters around a core that neither starts nor
ends with a quote, the result is the trimmed core. -/
theorem c5_normalize_text :
    normalize_str PyVal.vnone = "" ∧
    (∀ n : Int, normalize_str (PyVal.vint n) = pyStrip (toString n)) ∧
    (∀ (s core : String) (a b : Nat),
      (pyStrip s).data = List.replicate a '"' ++ core.data ++ List.replicate b '"' →
      (∀ c, core.data.head? = some c → c ≠ '"') →
      (∀ c, core.data.getLast? = some c → c ≠ '"') →
      normalize_str (PyVal.vstr s) = pyStrip core) := by
  refine ⟨rfl, fun n => rfl, ?_⟩
  intro s core a b hsplit h1 h2
  show normStr s = pyStrip core
  unfold normStr pyStripQuotes
  rw [hsplit, stripEnds_quote_wrap a b core.data h1 h2]

/-- C5, counterexample to the claim as stated: the input `""x""` (whose
trimmed form carries two layers of quotes) normalizes to `x`, not to
`"x"` with one layer remaining — Python's `strip('"')` removes every
surrounding quote character. -/
theorem c5_double_quote_layers :
    normalize_str (PyVal.vstr "\"\"x\"\"") = "x" ∧
    normalize_str (PyVal.vstr "\"\"x\"\"") ≠ "\"x\"" := by
  constructor
  · decide
  · decide

/-- C5, witness: the string clause applied to `"abc"` (one quote layer,
core `abc`). -/
theorem c5_witness :
    (pyStrip "\"abc\"").data =
      List.replicate 1 '"' ++ ("abc" : String).data ++ List.replicate 1 '"' ∧
    normalize_str (PyVal.vstr "\"abc\"") = pyStrip "abc" :=
  ⟨by decide,
   c5_normalize_text.2.2 "\"abc\"" "abc" 1 1 (by decide) (by decide) (by decide)⟩

theorem keyMem_lowerKeys (row : Row) (k : String) :
    keyMem (lowerKeys row) k = true ↔ ∃ kv ∈ row, pyLower (pyStrip kv.1) = k := by
  show (List.map _ row).any _ = true ↔ _
  rw [List.any_map, List.any_eq_true]
  constructor
  · rintro ⟨kv, hmem, hk⟩
    exact ⟨kv, hmem, by simpa using hk⟩
  · rintro ⟨kv, hmem, hk⟩
    exact ⟨kv, hmem, by simpa using hk⟩

theorem dictGet_isSome (row : Row) (k : String) (h : keyMem row k = true) :
    (dictGet row k).isSome = true := by
  simp only [keyMem, List.any_eq_true, decide_eq_true_eq] at h
  obtain ⟨kv, hmem, hk⟩ := h
  have hne : row.filter (fun kv => kv.1 = k) ≠ [] := by
    intro hnil
    have hm : kv ∈ row.filter (fun kv => kv.1 = k) :=
      List.mem_filter.mpr ⟨hmem, by simpa using hk⟩
    rw [hnil] at hm
    exact absurd hm (List.not_mem_nil kv)
  unfold dictGet
  cases hgl : (row.filter (fun kv => kv.1 = k)).getLast? with
  | none => exact absurd (List.getLast?_eq_none_iff.mp hgl) hne
  | some kv' => rfl

/-- C6 (amended): the case-insensitive sku alias set of the Field
Resolver is exactly {sku, productcode, product_code, "product id",
productid} — the code registers "product id" (with a space), not
"product code"; the listed "productCode" lowercases to productcode.  A
row (with keys lowercased as the validator does) resolves the sku field
precisely when one of its keys, stripped and lowercased, lies in that
set. -/
theorem c6_sku_aliases (row : Row) :
    (field_from_row (lowerKeys row) "sku").isSome = true ↔
      ∃ kv ∈ row, pyLower (pyStrip kv.1) ∈
        (["sku", "productcode", "product_code", "product id", "productid"] : List String) := by
  constructor
  · intro h
    unfold field_from_row at h
    cases hfind : (CSV_FIELD_ALIASES "sku").find? (fun a => keyMem (lowerKeys row) (pyLower a)) with
    | none => rw [hfind] at h; simp at h
    | some a =>
      have hpred : keyMem (lowerKeys row) (pyLower a) = true := by
        have := List.find?_some hfind
        simpa using this
      have hmem_a : a ∈ CSV_FIELD_ALIASES "sku" := List.mem_of_find?_eq_some hfind
      obtain ⟨kv, hkv, hlow⟩ := (keyMem_lowerKeys row (pyLower a)).mp hpred
      refine ⟨kv, hkv, ?_⟩
      rw [hlow]
      have : a ∈ (["sku", "productcode", "productCode", "product_code", "product id",
          "productid"] : List String) := by
        simpa [CSV_FIELD_ALIASES] using hmem_a
      fin_cases this <;> decide
  · rintro ⟨kv, hkv, hset⟩
    have hex : ∃ a ∈ CSV_FIELD_ALIASES "sku", keyMem (lowerKeys row) (pyLower a) = true := by
      have hmem : ∀ w ∈ (["sku", "productcode", "product_code", "product id",
          "productid"] : List String), w ∈ CSV_FIELD_ALIASES "sku" ∧ pyLower w = w := by
        intro w hw
        fin_cases hw <;> exact ⟨by decide, by decide⟩
      obtain ⟨hwmem, hwlow⟩ := hmem _ hset
      refine ⟨pyLower (pyStrip kv.1), hwmem, ?_⟩
      rw [hwlow]
      exact (keyMem_lowerKeys row _).mpr ⟨kv, hkv, rfl⟩
    obtain ⟨a0, hmem0, hpred0⟩ := hex
    unfold field_from_row
    cases hf : (CSV_FIELD_ALIASES "sku").find? (fun a => keyMem (lowerKeys row) (pyLower a)) with
    | none =>
      exfalso
      have := List.find?_eq_none.mp hf a0 hmem0
      simp [hpred0] at this
    | some a =>
      have hpred : keyMem (lowerKeys row) (pyLower a) = true := by
        have h := List.find?_some hf
        simpa using h
      simpa using dictGet_isSome (lowerKeys row) (pyLower a) hpred

/-- C6, counterexample to the claim as stated: a row whose only
sku-like header is "product code" (with a space) does NOT resolve to
the sku field, while "product id" does. -/
theorem c6_product_code_not_alias :
    field_from_row (lowerKeys [("product code", PyVal.vstr "X")]) "sku" = none ∧
    field_from_row (lowerKeys [("product id", PyVal.vstr "X")]) "sku" =
      some (PyVal.vstr "X") := by
  constructor
  · decide
  · decide

/-- C6, witness: the amended alias characterization applied to a row
headed "Product ID". -/
theorem c6_witness :
    (field_from_row (lowerKeys [("Product ID", PyVal.vstr "X")]) "sku").isSome = true :=
  (c6_sku_aliases [("Product ID", PyVal.vstr "X")]).mpr
    ⟨("Product ID", PyVal.vstr "X"), by decide, by decide⟩

theorem normalize_price_eq (p : String) (h : ¬ normStr p = "") :
    normalize_price p =
      match pyFloat (stripCurrency (stripCommas (normStr p))) with
      | none => (false, 0, "price not a number")
      | some f =>
        if pyNeg f then (false, 0, "price negative")
        else if pyNotFinite f then (false, 0, "price not finite")
        else (true, round2 (pyFloatVal f), "") := by
  unfold normalize_price
  rw [if_neg h]

/-- C4: `normalize_price` fails exactly when the normalized input is
empty, or is not a float literal after removing every comma and every
occurrence of each of the characters `$ € £ A U D a u d` and space
(per-character stripping), or the parsed value is negative (including
negative infinity), or the parsed value is infinite or NaN; on success
it returns the value rounded to two decimal places. -/
theorem c4_normalize_price (p : String) :
    ((normalize_price p).1 = false ↔
      normStr p = "" ∨
      pyFloat (stripCurrency (stripCommas (normStr p))) = none ∨
      (∃ q : ℚ, pyFloat (stripCurrency (stripCommas (normStr p))) = some (.fin q) ∧ q < 0) ∨
      pyFloat (stripCurrency (stripCommas (normStr p))) = some .neginf ∨
      pyFloat (stripCurrency (stripCommas (normStr p))) = some .inf ∨
      pyFloat (stripCurrency (stripCommas (normStr p))) = some .nan) ∧
    ((normalize_price p).1 = true →
      ∃ q : ℚ, pyFloat (stripCurrency (stripCommas (normStr p))) = some (.fin q) ∧ 0 ≤ q ∧
        (normalize_price p).2.1 = round2 q) := by
  by_cases hs : normStr p = ""
  · have : normalize_price p = (false, 0, "price empty") := by
      unfold normalize_price
      rw [if_pos hs]
    rw [this]
    refine ⟨⟨fun _ => Or.inl hs, fun _ => rfl⟩, fun h => by simp at h⟩
  · rw [normalize_price_eq p hs]
    cases hf : pyFloat (stripCurrency (stripCommas (normStr p))) with
    | none => simp [hs]
    | some f =>
      cases f with
      | fin q =>
        by_cases hq : q < 0
        · simp [hs, pyNeg, hq]
        · have hq' : 0 ≤ q := not_lt.mp hq
          simp [hs, pyNeg, pyNotFinite, pyFloatVal, hq, hq']
      | inf => simp [hs, pyNeg, pyNotFinite]
      | neginf => simp [hs, pyNeg, pyNotFinite]
      | nan => simp [hs, pyNeg, pyNotFinite]

/-- C4, witness: the success clause at the input `$19.99`. -/
theorem c4_witness :
    (normalize_price "$19.99").1 = true ∧
    (∃ q : ℚ, pyFloat (stripCurrency (stripCommas (normStr "$19.99"))) = some (.fin q) ∧
      0 ≤ q ∧ (normalize_price "$19.99").2.1 = round2 q) :=
  ⟨by decide, (c4_normalize_price "$19.99").2 (by decide)⟩

/-- C3 (amended): whenever the last validation produced at least one
error AND at least one valid record, every export — in single, rows, or
group batch mode — appends the error file `<base>_errors.csv`, whose
rendered content is the header `row,context,error` followed by one line
per error.  When the record list is empty and errors exist, the claim
fails: the export aborts with an error dialog and writes nothing. -/
theorem c3_errors_file (baseName : String) (docs : List Doc) (errs : List VError)
    (o : ExportOpts) (hd : docs ≠ []) (he : errs ≠ []) :
    ∃ fs : List OutFile, export_files baseName docs errs o = some fs ∧
      fs.getLast? = some (.errorsCsv (baseName ++ "_errors.csv") (renderErrorsCsv errs)) ∧
      (renderErrorsCsv errs).head? = some "row,context,error" ∧
      (renderErrorsCsv errs).length = errs.length + 1 := by
  unfold export_files
  rw [if_neg (fun h => hd h.1), if_pos he]
  refine ⟨recordFilesOf docs o ++
    [.errorsCsv (baseName ++ "_errors.csv") (renderErrorsCsv errs)], rfl, ?_, rfl, ?_⟩
  · exact List.getLast?_concat _
  · simp [renderErrorsCsv]

/-- C3, counterexample to the claim as stated: with one error and no
valid records the export returns no files at all — in particular no
`<base>_errors.csv`. -/
theorem c3_abort_without_records :
    export_files "f" [] [⟨2, "c", "bad"⟩]
      ⟨true, true, true, "rows", some 5, "postcode", fun _ => ""⟩ = none := by
  decide

/-- C3, witness: one record, one error, single mode. -/
theorem c3_witness :
    (([⟨"A", "2000", 10⟩] : List Doc) ≠ []) ∧ (([⟨2, "c", "bad"⟩] : List VError) ≠ []) ∧
    ∃ fs : List OutFile,
      export_files "base" [⟨"A", "2000", 10⟩] [⟨2, "c", "bad"⟩]
        ⟨true, false, false, "rows", none, "", fun _ => ""⟩ = some fs ∧
      fs.getLast? = some (.errorsCsv ("base" ++ "_errors.csv")
        (renderErrorsCsv [⟨2, "c", "bad"⟩])) ∧
      (renderErrorsCsv [⟨2, "c", "bad"⟩]).head? = some "row,context,error" ∧
      (renderErrorsCsv [⟨2, "c", "bad"⟩]).length = ([⟨2, "c", "bad"⟩] : List VError).length + 1 :=
  ⟨by decide, by decide,
   c3_errors_file "base" [⟨"A", "2000", 10⟩] [⟨2, "c", "bad"⟩]
     ⟨true, false, false, "rows", none, "", fun _ => ""⟩ (by decide) (by decide)⟩

theorem ceil_div_bounds (n k : Nat) (hk : 1 ≤ k) :
    n ≤ ((n + k - 1) / k) * k ∧ ((n + k - 1) / k) * k < n + k := by
  have hdm := Nat.div_add_mod (n + k - 1) k
  have hml : (n + k - 1) % k < k := Nat.mod_lt _ hk
  rw [Nat.mul_comm]
  generalize hB : k * ((n + k - 1) / k) = B at hdm ⊢
  generalize hr : (n + k - 1) % k = r at hdm hml
  omega

theorem chunk_arith (n k i : Nat) (hk : 1 ≤ k) (hi : i + 1 < (n + k - 1) / k) :
    min ((i + 1) * k) n - i * k = k ∧ k ≤ n - i * k := by
  obtain ⟨h1, h2⟩ := ceil_div_bounds n k hk
  generalize hP : (n + k - 1) / k = parts at h1 h2 hi
  have h3 : (i + 1) * k ≤ (parts - 1) * k := Nat.mul_le_mul_right k (by omega)
  have h4 : (parts - 1) * k = parts * k - k := Nat.sub_one_mul _ _
  have h5 : (i + 1) * k = i * k + k := Nat.succ_mul i k
  have h6 : k ≤ parts * k := by
    calc k = 1 * k := (Nat.one_mul k).symm
    _ ≤ parts * k := Nat.mul_le_mul_right k (by omega)
  generalize (i + 1) * k = B at h3 h5 ⊢
  generalize i * k = A at h5 ⊢
  generalize (parts - 1) * k = D at h3 h4
  generalize parts * k = C at h1 h2 h4 h6
  omega

theorem pySlice_length {α : Type} (l : List α) (s e : Nat) :
    (pySlice l s e).length = min (e - s) (l.length - s) := by
  simp [pySlice]

theorem flatten_map_singleton {α β : Type} (f : α → β) :
    ∀ l : List α, (l.map (fun a => [f a])).flatten = l.map f
  | [] => rfl
  | a :: t => by simp [flatten_map_singleton f t]

theorem export_by_rows_csv_only (csvRows jsonRows : List Doc) (k : Nat) (o : ExportOpts)
    (hc : o.writeCsv = true) (hj : o.writeJson = false) (hn : csvRows.length ≠ 0) :
    export_by_rows csvRows jsonRows k o =
      (List.range ((csvRows.length + k - 1) / k)).map (fun i =>
        .recordsCsv ("part" ++ padZeros 3 (toString (i + 1))) "all"
          (pySlice csvRows (i * k) (min ((i + 1) * k) csvRows.length))) := by
  unfold export_by_rows
  rw [if_neg hn]
  simp only [hc, hj, if_true, if_false, Bool.false_eq_true, reduceIte, List.append_nil]
  exact flatten_map_singleton _ _

theorem slices_join (rows : List Doc) (k : Nat) :
    ∀ p : Nat,
      ((List.range p).map (fun i =>
        pySlice rows (i * k) (min ((i + 1) * k) rows.length))).flatten
        = rows.take (min (p * k) rows.length)
  | 0 => by simp
  | p + 1 => by
    rw [List.range_succ, List.map_append, List.flatten_append, slices_join rows k p]
    simp only [List.map_cons, List.map_nil, List.flatten_cons, List.flatten_nil, List.append_nil]
    by_cases hpk : rows.length ≤ p * k
    · have hd : rows.drop (p * k) = [] := List.drop_eq_nil_of_le hpk
      have h1 : min (p * k) rows.length = rows.length := Nat.min_eq_right hpk
      have h2 : min ((p + 1) * k) rows.length = rows.length := by
        refine Nat.min_eq_right (le_trans hpk ?_)
        rw [Nat.succ_mul]
        exact Nat.le_add_right _ _
      simp [pySlice, hd, h1, h2]
    · push_neg at hpk
      have h1 : min (p * k) rows.length = p * k := Nat.min_eq_left (le_of_lt hpk)
      rw [h1]
      show rows.take (p * k) ++ (rows.drop (p * k)).take (min ((p + 1) * k) rows.length - p * k)
          = rows.take (min ((p + 1) * k) rows.length)
      rw [← List.take_add]
      congr 1
      have h5 : (p + 1) * k = p * k + k := Nat.succ_mul p k
      generalize (p + 1) * k = B at h5 ⊢
      generalize p * k = A at h5 hpk ⊢
      omega

/-- C7: for a non-empty record list of length `n` and `rowsPerFile`
value `k ≥ 1`, rows-mode export produces exactly `(n + k - 1) / k`
batches — which is `⌈n/k⌉`, as the bracketing inequalities state —
every batch except possibly the last has exactly `k` records,
concatenating the batches in order reproduces the record sequence, and
batch `i` (0-based) carries the label `part` followed by the
zero-padded three-digit number `i + 1`, starting at `part001`. -/
theorem c7_rows_partition (csvRows jsonRows : List Doc) (k : Nat) (o : ExportOpts)
    (hk : 1 ≤ k) (hn : 1 ≤ csvRows.length) (hc : o.writeCsv = true) (hj : o.writeJson = false) :
    (export_by_rows csvRows jsonRows k o).length = (csvRows.length + k - 1) / k ∧
    csvRows.length ≤ ((csvRows.length + k - 1) / k) * k ∧
    ((csvRows.length + k - 1) / k) * k < csvRows.length + k ∧
    (∀ i, ∀ h : i < (export_by_rows csvRows jsonRows k o).length,
      i + 1 < (export_by_rows csvRows jsonRows k o).length →
      (rowsOfFile ((export_by_rows csvRows jsonRows k o).get ⟨i, h⟩)).length = k) ∧
    ((export_by_rows csvRows jsonRows k o).map rowsOfFile).flatten = csvRows ∧
    (∀ i, ∀ h : i < (export_by_rows csvRows jsonRows k o).length,
      batchOfFile ((export_by_rows csvRows jsonRows k o).get ⟨i, h⟩) =
        "part" ++ padZeros 3 (toString (i + 1))) := by
  have hn0 : csvRows.length ≠ 0 := by omega
  have hrw := export_by_rows_csv_only csvRows jsonRows k o hc hj hn0
  obtain ⟨hb1, hb2⟩ := ceil_div_bounds csvRows.length k hk
  refine ⟨by rw [hrw]; simp, hb1, hb2, ?_, ?_, ?_⟩
  · intro i h hi1
    rw [hrw] at hi1
    simp only [List.length_map, List.length_range] at hi1
    rw [List.get_of_eq hrw ⟨i, h⟩]
    simp only [List.get_eq_getElem, Fin.coe_cast, List.getElem_map, List.getElem_range,
      rowsOfFile]
    rw [pySlice_length]
    obtain ⟨hc1, hc2⟩ := chunk_arith csvRows.length k i hk hi1
    rw [hc1]
    exact Nat.min_eq_left hc2
  · rw [hrw, List.map_map]
    have : rowsOfFile ∘ (fun i =>
        OutFile.recordsCsv ("part" ++ padZeros 3 (toString (i + 1))) "all"
          (pySlice csvRows (i * k) (min ((i + 1) * k) csvRows.length))) =
        (fun i => pySlice csvRows (i * k) (min ((i + 1) * k) csvRows.length)) := rfl
    rw [this, slices_join csvRows k]
    rw [Nat.min_eq_right hb1, List.take_length]
  · intro i h
    rw [List.get_of_eq hrw ⟨i, h⟩]
    simp only [List.get_eq_getElem, Fin.coe_cast, List.getElem_map, List.getElem_range,
      batchOfFile]

/-- C7, witness: three records, two rows per file — two batches, the
first of size two, concatenation restoring the input. -/
theorem c7_witness :
    (1 ≤ 2) ∧
    (1 ≤ ([⟨"A", "2000", 1⟩, ⟨"B", "2000", 2⟩, ⟨"C", "2000", 3⟩] : List Doc).length) ∧
    (export_by_rows [⟨"A", "2000", 1⟩, ⟨"B", "2000", 2⟩, ⟨"C", "2000", 3⟩] [] 2
        ⟨true, false, true, "rows", some 2, "", fun _ => ""⟩).length =
      (([⟨"A", "2000", 1⟩, ⟨"B", "2000", 2⟩, ⟨"C", "2000", 3⟩] : List Doc).length + 2 - 1) / 2 ∧
    ((export_by_rows [⟨"A", "2000", 1⟩, ⟨"B", "2000", 2⟩, ⟨"C", "2000", 3⟩] [] 2
        ⟨true, false, true, "rows", some 2, "", fun _ => ""⟩).map rowsOfFile).flatten =
      [⟨"A", "2000", 1⟩, ⟨"B", "2000", 2⟩, ⟨"C", "2000", 3⟩] :=
  ⟨by decide, by decide,
   (c7_rows_partition [⟨"A", "2000", 1⟩, ⟨"B", "2000", 2⟩, ⟨"C", "2000", 3⟩] [] 2
     ⟨true, false, true, "rows", some 2, "", fun _ => ""⟩
     (by decide) (by decide) rfl rfl).1,
   (c7_rows_partition [⟨"A", "2000", 1⟩, ⟨"B", "2000", 2⟩, ⟨"C", "2000", 3⟩] [] 2
     ⟨true, false, true, "rows", some 2, "", fun _ => ""⟩
     (by decide) (by decide) rfl rfl).2.2.2.2.1⟩

theorem insertGroup_flatten_perm (k : String) (v : Doc × Doc) :
    ∀ gs : List (String × List (Doc × Doc)),
      (((insertGroup gs k v).map Prod.snd).flatten).Perm
        (((gs.map Prod.snd).flatten) ++ [v])
  | [] => by simp [insertGroup]
  | (k', vs) :: rest => by
    unfold insertGroup
    by_cases h : k' = k
    · rw [if_pos h]
      simp only [List.map_cons, List.flatten_cons, List.append_assoc]
      exact List.Perm.append_left vs List.perm_append_comm
    · rw [if_neg h]
      simp only [List.map_cons, List.flatten_cons, List.append_assoc]
      exact List.Perm.append_left vs (insertGroup_flatten_perm k v rest)

theorem foldl_insertGroup_perm (key : Doc → String) :
    ∀ (pairs : List (Doc × Doc)) (gs : List (String × List (Doc × Doc))),
      (((pairs.foldl (fun gs p => insertGroup gs (key p.1) p) gs).map Prod.snd).flatten).Perm
        (((gs.map Prod.snd).flatten) ++ pairs)
  | [], gs => by simp
  | p :: ps, gs => by
    simp only [List.foldl_cons]
    refine (foldl_insertGroup_perm key ps (insertGroup gs (key p.1) p)).trans ?_
    have h1 := insertGroup_flatten_perm (key p.1) p gs
    refine (h1.append_right ps).trans ?_
    rw [List.append_assoc, List.singleton_append]

theorem buildGroups_flatten_perm (key : Doc → String) (pairs : List (Doc × Doc)) :
    (((buildGroups key pairs).map Prod.snd).flatten).Perm pairs := by
  have h := foldl_insertGroup_perm key pairs []
  simpa [buildGroups] using h

theorem insertGroup_keys_sub (k : String) (v : Doc × Doc) :
    ∀ (gs : List (String × List (Doc × Doc))) (x : String),
      x ∈ (insertGroup gs k v).map Prod.fst → x ∈ gs.map Prod.fst ∨ x = k
  | [], x => by simp [insertGroup]
  | (k', vs) :: rest, x => by
    unfold insertGroup
    by_cases h : k' = k
    · rw [if_pos h]
      intro hx
      left
      simpa using hx
    · rw [if_neg h]
      intro hx
      simp only [List.map_cons, List.mem_cons] at hx ⊢
      rcases hx with rfl | hx
      · exact Or.inl (Or.inl rfl)
      · rcases insertGroup_keys_sub k v rest x hx with h2 | h2
        · exact Or.inl (Or.inr h2)
        · exact Or.inr h2

theorem insertGroup_keys_nodup (k : String) (v : Doc × Doc) :
    ∀ gs : List (String × List (Doc × Doc)),
      (gs.map Prod.fst).Nodup → ((insertGroup gs k v).map Prod.fst).Nodup
  | [], _ => by simp [insertGroup]
  | (k', vs) :: rest, hnd => by
    simp only [List.map_cons, List.nodup_cons] at hnd
    unfold insertGroup
    by_cases h : k' = k
    · rw [if_pos h]
      simp only [List.map_cons, List.nodup_cons]
      exact hnd
    · rw [if_neg h]
      simp only [List.map_cons, List.nodup_cons]
      refine ⟨fun hx => ?_, insertGroup_keys_nodup k v rest hnd.2⟩
      rcases insertGroup_keys_sub k v rest k' hx with h2 | h2
      · exact hnd.1 h2
      · exact h h2

theorem buildGroups_keys_nodup (key : Doc → String) (pairs : List (Doc × Doc)) :
    ((buildGroups key pairs).map Prod.fst).Nodup := by
  have h : ∀ (ps : List (Doc × Doc)) (gs : List (String × List (Doc × Doc))),
      (gs.map Prod.fst).Nodup →
      (((ps.foldl (fun gs p => insertGroup gs (key p.1) p) gs)).map Prod.fst).Nodup := by
    intro ps
    induction ps with
    | nil => intro gs hgs; simpa using hgs
    | cons p pt ih =>
      intro gs hgs
      simp only [List.foldl_cons]
      exact ih _ (insertGroup_keys_nodup (key p.1) p gs hgs)
  simpa [buildGroups] using h pairs [] (by simp)

theorem insertGroup_member_key (key : Doc → String) (k : String) (v : Doc × Doc)
    (hv : key v.1 = k) :
    ∀ gs : List (String × List (Doc × Doc)),
      (∀ g ∈ gs, ∀ p ∈ g.2, key p.1 = g.1) →
      ∀ g ∈ insertGroup gs k v, ∀ p ∈ g.2, key p.1 = g.1
  | [], _ => by
    intro g hg p hp
    simp only [insertGroup, List.mem_singleton] at hg
    subst hg
    simp only [List.mem_singleton] at hp
    subst hp
    exact hv
  | (k', vs) :: rest, hall => by
    intro g hg p hp
    unfold insertGroup at hg
    by_cases h : k' = k
    · rw [if_pos h] at hg
      simp only [List.mem_cons] at hg
      rcases hg with rfl | hg
      · simp only [List.mem_append, List.mem_singleton] at hp
        rcases hp with hp | rfl
        · exact hall (k', vs) (List.mem_cons_self _ _) p hp
        · rw [hv, h]
      · exact hall g (List.mem_cons_of_mem _ hg) p hp
    · rw [if_neg h] at hg
      simp only [List.mem_cons] at hg
      rcases hg with rfl | hg
      · exact hall (k', vs) (List.mem_cons_self _ _) p hp
      · exact insertGroup_member_key key k v hv rest
          (fun g' hg' => hall g' (List.mem_cons_of_mem _ hg')) g hg p hp

theorem buildGroups_member_key (key : Doc → String) (pairs : List (Doc × Doc)) :
    ∀ g ∈ buildGroups key pairs, ∀ p ∈ g.2, key p.1 = g.1 := by
  have h : ∀ (ps : List (Doc × Doc)) (gs : List (String × List (Doc × Doc))),
      (∀ g ∈ gs, ∀ p ∈ g.2, key p.1 = g.1) →
      ∀ g ∈ ps.foldl (fun gs p => insertGroup gs (key p.1) p) gs, ∀ p ∈ g.2, key p.1 = g.1 := by
    intro ps
    induction ps with
    | nil => intro gs hgs; simpa using hgs
    | cons p pt ih =>
      intro gs hgs
      simp only [List.foldl_cons]
      exact ih _ (insertGroup_member_key key (key p.1) p rfl gs hgs)
  exact h pairs [] (by simp)

theorem export_by_group_json_only (jr cr : List Doc) (col : String) (o : ExportOpts)
    (hc : o.writeCsv = false) (hj : o.writeJson = true) :
    export_by_group jr cr col o =
      (buildGroups (groupValue o.priceStr (pyLower col)) (jr.zip cr)).map
        (fun g => .recordsJson "group" (sanitize_group g.1) (g.2.map (fun p => p.1))) := by
  unfold export_by_group
  simp only [hc, hj, Bool.false_eq_true, if_false, if_true, reduceIte, List.nil_append]
  exact flatten_map_singleton _ _

theorem sanitize_group_chars (s : String) :
    ∀ c ∈ (sanitize_group s).data, pyIsAlnum c = true ∨ c = '-' ∨ c = '_' ∨ c = '.' := by
  intro c hc
  unfold sanitize_group at hc
  by_cases h : (⟨s.data.map sanitizeChar⟩ : String) = ""
  · rw [if_pos h] at hc
    have hUNK : ("UNK" : String).data = ['U', 'N', 'K'] := rfl
    rw [hUNK] at hc
    simp only [List.mem_cons, List.not_mem_nil, or_false] at hc
    rcases hc with rfl | rfl | rfl <;> · left; decide
  · rw [if_neg h] at hc
    have hc2 : c ∈ s.data.map sanitizeChar := List.take_subset _ _ hc
    obtain ⟨a, _, rfl⟩ := List.mem_map.mp hc2
    unfold sanitizeChar
    by_cases ha : (pyIsAlnum a || a = '-' || a = '_' || a = '.') = true
    · rw [if_pos ha]
      simp only [Bool.or_eq_true, decide_eq_true_eq] at ha
      tauto
    · rw [if_neg ha]
      right; right; left; rfl

theorem sanitize_group_length (s : String) : (sanitize_group s).data.length ≤ 80 := by
  unfold sanitize_group
  by_cases h : (⟨s.data.map sanitizeChar⟩ : String) = ""
  · rw [if_pos h]; decide
  · rw [if_neg h]
    show ((s.data.map sanitizeChar).take 80).length ≤ 80
    rw [List.length_take]
    exact Nat.min_le_left _ _

/-- C8 (amended): in group mode (JSON output), the export emits one file
per group, the groups partition the zipped record pairs — their
flattened contents are a permutation of the record list, group keys are
pairwise distinct, and every pair sits in the group of its own key — and
each file's group label is `sanitize_group` of the group value, which
keeps every character that is alphanumeric in Python's Unicode-aware
sense (not only ASCII `[A-Za-z0-9]`) or one of `-_.`, replaces every
other character with `_`, truncates to 80 characters, and maps the empty
string to `"UNK"`; an empty group value (e.g. an empty sku) is mapped to
`"UNK"` before sanitization. -/
theorem c8_group_partition (jr cr : List Doc) (col : String) (o : ExportOpts)
    (hc : o.writeCsv = false) (hj : o.writeJson = true) (hlen : jr.length = cr.length) :
    export_by_group jr cr col o =
      (buildGroups (groupValue o.priceStr (pyLower col)) (jr.zip cr)).map
        (fun g => .recordsJson "group" (sanitize_group g.1) (g.2.map (fun p => p.1))) ∧
    (((export_by_group jr cr col o).map rowsOfFile).flatten).Perm jr ∧
    ((buildGroups (groupValue o.priceStr (pyLower col)) (jr.zip cr)).map Prod.fst).Nodup ∧
    (∀ g ∈ buildGroups (groupValue o.priceStr (pyLower col)) (jr.zip cr), ∀ p ∈ g.2,
      groupValue o.priceStr (pyLower col) p.1 = g.1) ∧
    (∀ s : String, ∀ c ∈ (sanitize_group s).data,
      pyIsAlnum c = true ∨ c = '-' ∨ c = '_' ∨ c = '.') ∧
    (∀ s : String, (sanitize_group s).data.length ≤ 80) ∧
    sanitize_group "" = "UNK" ∧
    (∀ d : Doc, d.sku = "" → key_for_json o.priceStr "sku" d = "UNK") := by
  have hrw := export_by_group_json_only jr cr col o hc hj
  refine ⟨hrw, ?_, buildGroups_keys_nodup _ _, buildGroups_member_key _ _,
    sanitize_group_chars, sanitize_group_length, by decide, ?_⟩
  · rw [hrw, List.map_map]
    have h1 : rowsOfFile ∘ (fun (g : String × List (Doc × Doc)) =>
        OutFile.recordsJson "group" (sanitize_group g.1) (g.2.map (fun p => p.1))) =
        fun (g : String × List (Doc × Doc)) => g.2.map (fun p => p.1) := rfl
    rw [h1]
    have h2 : ((buildGroups (groupValue o.priceStr (pyLower col)) (jr.zip cr)).map
        (fun (g : String × List (Doc × Doc)) => g.2.map (fun p => p.1))).flatten =
        ((((buildGroups (groupValue o.priceStr (pyLower col)) (jr.zip cr)).map
          Prod.snd).flatten).map (fun (p : Doc × Doc) => p.1)) := by
      rw [List.map_flatten, List.map_map]
      rfl
    rw [h2]
    have h3 := (buildGroups_flatten_perm (groupValue o.priceStr (pyLower col))
      (jr.zip cr)).map (fun (p : Doc × Doc) => p.1)
    refine h3.trans ?_
    rw [show ((jr.zip cr).map (fun (p : Doc × Doc) => p.1)) = (jr.zip cr).map Prod.fst from rfl,
      List.map_fst_zip jr cr (le_of_eq hlen)]
  · intro d hd
    simp [key_for_json, hd]

/-- C8, counterexample to the claim as stated: `é` is alphanumeric for
Python's `isalnum`, so `_sanitize_group` keeps it, while the claim's
ASCII class `[A-Za-z0-9-_.]` would replace it with `_`; the value is
reachable since `é` is a valid sku. -/
theorem c8_sanitize_unicode :
    (is_valid_sku "é").1 = true ∧
    sanitize_group "é" = "é" ∧
    sanitizeSpecAscii "é" = "_" ∧
    sanitize_group "é" ≠ sanitizeSpecAscii "é" :=
  ⟨by decide, by decide, by decide, by decide⟩

/-- C8, witness: grouping two records by sku. -/
theorem c8_witness :
    (((export_by_group [⟨"é", "2000", 1⟩, ⟨"A", "2000", 2⟩] [⟨"é", "", 1⟩, ⟨"A", "", 2⟩]
        "sku" ⟨false, true, true, "group", none, "sku", fun _ => "x"⟩).map
      rowsOfFile).flatten).Perm [⟨"é", "2000", 1⟩, ⟨"A", "2000", 2⟩] :=
  (c8_group_partition [⟨"é", "2000", 1⟩, ⟨"A", "2000", 2⟩] [⟨"é", "", 1⟩, ⟨"A", "", 2⟩]
    "sku" ⟨false, true, true, "group", none, "sku", fun _ => "x"⟩ rfl rfl rfl).2.1

theorem string_data_append (a b : String) : (a ++ b).data = a.data ++ b.data := rfl

theorem is_valid_sku_snd (s : String) :
    (is_valid_sku s).1 = true ∨ (is_valid_sku s).2.data.head? = some 's' := by
  simp only [is_valid_sku]
  by_cases h1 : normStr s = ""
  · rw [if_pos h1]; right; rfl
  · rw [if_neg h1]
    by_cases h2 : (normStr s).data.any
        (fun ch => ¬(pyIsAlnum ch || ch = '-' || ch = '_' || ch = '.' || ch = '/')) = true
    · rw [if_pos h2]; right; rfl
    · rw [if_neg h2]
      by_cases h3 : (normStr s).data.length > 64
      · rw [if_pos h3]; right; rfl
      · rw [if_neg h3]; left; rfl

theorem is_valid_postcode_snd (s : String) :
    (is_valid_postcode s).1 = true ∨ (is_valid_postcode s).2.data.head? = some 'p' := by
  simp only [is_valid_postcode]
  by_cases h1 : normStr s = ""
  · rw [if_pos h1]; right; rfl
  · rw [if_neg h1]
    by_cases h2 : ¬((normStr s).data.all pyIsDigit = true) ∨ (normStr s).data.length ≠ 4
    · rw [if_pos h2]; right; rfl
    · rw [if_neg h2]; left; rfl

theorem normalize_price_snd (s : String) :
    (normalize_price s).1 = true ∨ (normalize_price s).2.2.data.head? = some 'p' := by
  by_cases hs : normStr s = ""
  · have h : normalize_price s = (false, 0, "price empty") := by
      unfold normalize_price
      rw [if_pos hs]
    rw [h]; right; rfl
  · rw [normalize_price_eq s hs]
    cases pyFloat (stripCurrency (stripCommas (normStr s))) with
    | none => right; rfl
    | some f =>
      by_cases h1 : pyNeg f = true
      · right
        simp only [h1, reduceIte]
        rfl
      · have h1f : pyNeg f = false := by revert h1; cases pyNeg f <;> simp
        by_cases h2 : pyNotFinite f = true
        · right
          simp only [h1f, h2, Bool.false_eq_true, reduceIte]
          rfl
        · have h2f : pyNotFinite f = false := by revert h2; cases pyNotFinite f <;> simp
          left
          simp only [h1f, h2f, Bool.false_eq_true, reduceIte]

theorem mem_ite_singleton {c : Prop} [Decidable c] {e m : String}
    (h : e ∈ (if c then [m] else [])) : c ∧ e = m := by
  by_cases hc : c
  · rw [if_pos hc] at h
    exact ⟨hc, by simpa using h⟩
  · rw [if_neg hc] at h
    simp at h

theorem rowErrs_head (rawSku rawPc rawPrice : String) :
    ∀ e ∈ rowErrs rawSku rawPc rawPrice,
      e.data.head? = some 's' ∨ e.data.head? = some 'p' := by
  intro e he
  unfold rowErrs at he
  simp only [List.mem_append] at he
  rcases he with ((((h | h) | h) | h) | h) | h
  · obtain ⟨-, rfl⟩ := mem_ite_singleton h
    left; rfl
  · obtain ⟨-, rfl⟩ := mem_ite_singleton h
    right; rfl
  · obtain ⟨-, rfl⟩ := mem_ite_singleton h
    right; rfl
  · obtain ⟨⟨-, hf⟩, rfl⟩ := mem_ite_singleton h
    rcases is_valid_sku_snd rawSku with h1 | h1
    · rw [h1] at hf; cases hf
    · exact Or.inl h1
  · obtain ⟨⟨-, hf⟩, rfl⟩ := mem_ite_singleton h
    rcases is_valid_postcode_snd rawPc with h1 | h1
    · rw [h1] at hf; cases hf
    · exact Or.inr h1
  · obtain ⟨⟨-, hf⟩, rfl⟩ := mem_ite_singleton h
    rcases normalize_price_snd rawPrice with h1 | h1
    · rw [h1] at hf; cases hf
    · exact Or.inr h1

theorem joinSemi_ne_dup : ∀ errs : List String,
    (∀ e ∈ errs, e.data.head? = some 's' ∨ e.data.head? = some 'p') →
    errs ≠ [] → joinSemi errs ≠ "Duplicate id within file" := by
  intro errs h hne heq
  cases errs with
  | nil => exact hne rfl
  | cons a rest =>
    have ha := h a (List.mem_cons_self _ _)
    have hhead : (joinSemi (a :: rest)).data.head? = a.data.head? := by
      obtain ⟨c, cs, hac⟩ : ∃ c cs, a.data = c :: cs := by
        cases hd : a.data with
        | nil =>
          rw [hd] at ha
          rcases ha with h1 | h1 <;> exact absurd h1 (by simp)
        | cons c cs => exact ⟨c, cs, rfl⟩
      cases rest with
      | nil => rfl
      | cons b t =>
        show ((a ++ "; ") ++ joinSemi (b :: t)).data.head? = a.data.head?
        rw [string_data_append, string_data_append, hac]
        rfl
    rw [heq] at hhead
    rcases ha with h1 | h1 <;> rw [h1] at hhead <;> exact absurd hhead (by decide)

/-- C9: deduplication considers only rows that pass field validation.  A
field-invalid row is reported with its joined field reasons — never with
"Duplicate id within file" — and leaves both the record list and the
seen-key set untouched; therefore a later field-valid row with the same
(still unseen) identity key is accepted into the records, and two
identical field-invalid rows each produce their field-validation error. -/
theorem c9_dedup_only_valid :
    (∀ (st : VState) (i : Nat) (r : Row), rowErrsOf r ≠ [] →
      validate_obj st i r = { st with errors := st.errors ++
        [⟨i, rowContext (rowRaws r).1 (rowRaws r).2.1, joinSemi (rowErrsOf r)⟩] } ∧
      (validate_obj st i r).docs = st.docs ∧
      (validate_obj st i r).seen = st.seen ∧
      joinSemi (rowErrsOf r) ≠ "Duplicate id within file") ∧
    (∀ (st : VState) (i j : Nat) (r1 r2 : Row), rowErrsOf r1 ≠ [] → rowErrsOf r2 = [] →
      st.seen.contains (rowKey r2) = false →
      (validate_obj (validate_obj st i r1) j r2).docs = st.docs ++ [rowDoc r2]) ∧
    (∀ (st : VState) (i j : Nat) (r : Row), rowErrsOf r ≠ [] →
      (validate_obj (validate_obj st i r) j r).docs = st.docs ∧
      (validate_obj (validate_obj st i r) j r).errors = st.errors ++
        [⟨i, rowContext (rowRaws r).1 (rowRaws r).2.1, joinSemi (rowErrsOf r)⟩,
         ⟨j, rowContext (rowRaws r).1 (rowRaws r).2.1, joinSemi (rowErrsOf r)⟩]) := by
  have hmsg : ∀ r : Row, rowErrsOf r ≠ [] →
      joinSemi (rowErrsOf r) ≠ "Duplicate id within file" := by
    intro r hne
    exact joinSemi_ne_dup (rowErrsOf r) (rowErrs_head _ _ _) hne
  refine ⟨?_, ?_, ?_⟩
  · intro st i r he
    refine ⟨validate_obj_err st i r he, ?_, ?_, hmsg r he⟩
    · rw [validate_obj_err st i r he]
    · rw [validate_obj_err st i r he]
  · intro st i j r1 r2 he1 he2 hseen
    rw [validate_obj_err st i r1 he1]
    rw [validate_obj_acc { st with errors := st.errors ++
      [⟨i, rowContext (rowRaws r1).1 (rowRaws r1).2.1, joinSemi (rowErrsOf r1)⟩] } j r2 he2
      hseen]
  · intro st i j r he
    rw [validate_obj_err st i r he, validate_obj_err _ j r he]
    refine ⟨rfl, ?_⟩
    simp

/-- C9, witness: an invalid-price row followed by a valid row with the
same (sku, postCode): the second row is accepted. -/
theorem c9_witness :
    rowErrsOf [("sku", PyVal.vstr "A"), ("postcode", PyVal.vstr "2000"),
      ("price", PyVal.vstr "x")] ≠ [] ∧
    rowErrsOf [("sku", PyVal.vstr "A"), ("postcode", PyVal.vstr "2000"),
      ("price", PyVal.vstr "1")] = [] ∧
    (validate_obj (validate_obj emptyState 2
        [("sku", PyVal.vstr "A"), ("postcode", PyVal.vstr "2000"), ("price", PyVal.vstr "x")]) 3
        [("sku", PyVal.vstr "A"), ("postcode", PyVal.vstr "2000"),
         ("price", PyVal.vstr "1")]).docs =
      emptyState.docs ++ [rowDoc [("sku", PyVal.vstr "A"), ("postcode", PyVal.vstr "2000"),
        ("price", PyVal.vstr "1")]] :=
  ⟨by decide, by decide,
   c9_dedup_only_valid.2.1 emptyState 2 3
     [("sku", PyVal.vstr "A"), ("postcode", PyVal.vstr "2000"), ("price", PyVal.vstr "x")]
     [("sku", PyVal.vstr "A"), ("postcode", PyVal.vstr "2000"), ("price", PyVal.vstr "1")]
     (by decide) (by decide) (by decide)⟩
